import Mathlib

/-!
Verification of the contact-management system `db_system.py` (SQLite-backed
CRUD with an interactive menu).  The on-disk `contacts` table is modelled as
an explicit state: the list of stored rows plus the AUTOINCREMENT sequence
counter (SQLite's `sqlite_sequence` entry, which only ever grows and is the
source of freshly assigned ids).  Each accessor function of the source is
translated to a pure Lean function on that state; SQLite semantics that the
source relies on (`LIKE` wildcard matching with ASCII case folding, negative
`LIMIT` meaning "no limit", `ORDER BY id DESC`, `rowcount`) are embedded
explicitly.  File-producing operations (CSV export, backup) act on a
filesystem modelled as a map from path to file content.
-/

/-- One row of the `contacts` table (schema from `initialize_db` in the
source: `id` INTEGER PRIMARY KEY AUTOINCREMENT, `name` TEXT NOT NULL, the
three optional TEXT columns which may be NULL, and `created_at` TEXT NOT
NULL). -/
structure Contact where
  id : Nat
  name : String
  email : Option String
  phone : Option String
  notes : Option String
  created_at : String
deriving DecidableEq, Repr

/-- The persistent state of the database: the stored rows plus the
AUTOINCREMENT sequence value (the largest id ever assigned; SQLite's
AUTOINCREMENT guarantees new ids exceed it even after deletions). -/
structure DBState where
  rows : List Contact
  seq : Nat
deriving DecidableEq, Repr

/-- The state right after `initialize_db` on a fresh database file:
no rows, no id ever assigned. -/
def initState : DBState := ⟨[], 0⟩

/-- `create_contact(name, email=None, phone=None, notes=None)`: INSERT of a
new row; the id is assigned by AUTOINCREMENT (one more than the sequence
value) and returned via `cur.lastrowid`.  The caller supplies the
`created_at` timestamp (`datetime.utcnow().isoformat()` in the source). -/
def create_contact (st : DBState) (name : String)
    (email phone notes : Option String) (created_at : String) :
    DBState × Nat :=
  let newId := st.seq + 1
  (⟨st.rows ++ [⟨newId, name, email, phone, notes, created_at⟩], newId⟩, newId)

/-- Insert a contact into a list kept in descending id order
(auxiliary for `ORDER BY id DESC`). -/
def insertDesc (c : Contact) : List Contact → List Contact
  | [] => [c]
  | x :: xs => if c.id ≤ x.id then x :: insertDesc c xs else c :: x :: xs

/-- `ORDER BY id DESC`: sort the stored rows by identifier, largest first. -/
def sortByIdDesc : List Contact → List Contact
  | [] => []
  | x :: xs => insertDesc x (sortByIdDesc xs)

/-- `list_contacts(limit)`: `SELECT ... ORDER BY id DESC LIMIT ?`.  The
bound limit is an SQL integer; SQLite treats a negative LIMIT as "no upper
bound", and a non-negative one as a cap on the number of returned rows. -/
def list_contacts (st : DBState) (limit : Int) : List Contact :=
  let sorted := sortByIdDesc st.rows
  if limit < 0 then sorted else sorted.take limit.toNat

/-- `get_contact(contact_id)`: `SELECT ... WHERE id = ?` with `fetchone()`:
the first stored row with the given id, if any. -/
def get_contact (st : DBState) (contact_id : Nat) : Option Contact :=
  st.rows.find? (fun r => r.id == contact_id)

/-- ASCII lower-casing of one character: SQLite's `LIKE` is case-insensitive
for the ASCII range only. -/
def lowerChar (c : Char) : Char :=
  if 'A' ≤ c ∧ c ≤ 'Z' then Char.ofNat (c.toNat + 32) else c

/-- All suffixes of a character list, longest first, including the list
itself and the empty suffix. -/
def suffixes : List Char → List (List Char)
  | [] => [[]]
  | c :: cs => (c :: cs) :: suffixes cs

/-- SQLite `LIKE` pattern matching: `%` matches any character sequence,
`_` matches exactly one character, and any other pattern character matches
one text character up to ASCII case folding. -/
def likeMatch : List Char → List Char → Bool
  | [], s => s.isEmpty
  | c :: ps, s =>
    if c = '%' then (suffixes s).any (fun t => likeMatch ps t)
    else if c = '_' then
      match s with
      | [] => false
      | _ :: ds => likeMatch ps ds
    else
      match s with
      | [] => false
      | d :: ds => (lowerChar c == lowerChar d) && likeMatch ps ds

/-- The pattern `f"%{term}%"` that `search_contacts` binds to each
`LIKE ?` placeholder. -/
def mkLikePattern (term : String) : List Char :=
  '%' :: (term.data ++ ['%'])

/-- One disjunct `column LIKE '%term%'` of the search WHERE clause; a NULL
column compares to NULL under `LIKE`, which is not satisfied. -/
def colLike (term : String) : Option String → Bool
  | none => false
  | some s => likeMatch (mkLikePattern term) s.data

/-- The WHERE clause of `search_contacts`: the four `LIKE` disjuncts
OR'd together (`name` is never NULL). -/
def rowLike (term : String) (r : Contact) : Bool :=
  likeMatch (mkLikePattern term) r.name.data || colLike term r.email ||
    colLike term r.phone || colLike term r.notes

/-- `search_contacts(term)`: rows satisfying the `LIKE` disjunction,
ordered by id descending. -/
def search_contacts (st : DBState) (term : String) : List Contact :=
  sortByIdDesc (st.rows.filter (rowLike term))

/-- Case-folded "starts with": `t` is a prefix of `s` up to ASCII case.
Auxiliary for the spec-side notion of case-insensitive substring. -/
def startsWithFold : List Char → List Char → Bool
  | [], _ => true
  | _ :: _, [] => false
  | c :: cs, d :: ds => (lowerChar c == lowerChar d) && startsWithFold cs ds

/-- Modelled from the spec: "term is a substring (case-insensitive) of" the
text — some suffix of `s` starts with `t`, compared up to ASCII case. -/
def ciSubstr (t s : List Char) : Bool :=
  (suffixes s).any (startsWithFold t)

/-- Modelled from the spec: one optional column, case-insensitive substring
test; an absent field contains no substring. -/
def colCiSubstr (term : String) : Option String → Bool
  | none => false
  | some s => ciSubstr term.data s.data

/-- Modelled from the spec: "the contacts where term is a substring
(case-insensitive) of name, email, phone, or notes". -/
def rowCiSubstr (term : String) (r : Contact) : Bool :=
  ciSubstr term.data r.name.data || colCiSubstr term r.email ||
    colCiSubstr term r.phone || colCiSubstr term r.notes

/-- A search term with no SQLite `LIKE` wildcard characters. -/
def noWildcards (t : List Char) : Bool :=
  t.all (fun c => ¬ c = '%' ∧ ¬ c = '_')

/-- The per-row effect of the dynamically built
`UPDATE contacts SET ... WHERE id = ?`: on the row with the matching id,
each column named in the SET list (exactly the parameters that were passed
non-`None`) receives its new value; every other column, and every row with
a different id, is untouched. -/
def updRow (cid : Nat) (n e p nt : Option String) (r : Contact) : Contact :=
  if r.id = cid then
    { r with
      name := match n with | some v => v | none => r.name,
      email := match e with | some v => some v | none => r.email,
      phone := match p with | some v => some v | none => r.phone,
      notes := match nt with | some v => some v | none => r.notes }
  else r

/-- `update_contact(contact_id, name=None, email=None, phone=None,
notes=None)`: if no field is provided the function returns `False` without
issuing a statement; otherwise it executes the dynamic UPDATE and returns
whether `cur.rowcount` (the number of rows matched by the WHERE clause) is
positive. -/
def update_contact (st : DBState) (cid : Nat)
    (n e p nt : Option String) : DBState × Bool :=
  if n.isNone && e.isNone && p.isNone && nt.isNone then
    (st, false)
  else
    (⟨st.rows.map (updRow cid n e p nt), st.seq⟩,
      decide (0 < st.rows.countP (fun r => r.id == cid)))

/-- `delete_contact(contact_id)`: `DELETE FROM contacts WHERE id = ?`;
returns whether `cur.rowcount` (number of deleted rows) is positive. -/
def delete_contact (st : DBState) (cid : Nat) : DBState × Bool :=
  (⟨st.rows.filter (fun r => ¬ r.id == cid), st.seq⟩,
    decide (0 < st.rows.countP (fun r => r.id == cid)))

/-- One accessor call that mutates the table, for reasoning about whole
interaction histories (creations interleaved with updates and deletions). -/
inductive Op where
  | createOp (name : String) (email phone notes : Option String)
      (created_at : String)
  | updateOp (cid : Nat) (n e p nt : Option String)
  | deleteOp (cid : Nat)
deriving DecidableEq, Repr

/-- The state after one mutating accessor call. -/
def applyOp (st : DBState) : Op → DBState
  | .createOp nm e p nt ts => (create_contact st nm e p nt ts).1
  | .updateOp cid n e p nt => (update_contact st cid n e p nt).1
  | .deleteOp cid => (delete_contact st cid).1

/-- The state after a sequence of mutating accessor calls. -/
def runOps (st : DBState) : List Op → DBState
  | [] => st
  | op :: ops => runOps (applyOp st op) ops

/-- The identifiers returned by the `create_contact` calls of a history,
in call order. -/
def assignedIds (st : DBState) : List Op → List Nat
  | [] => []
  | .createOp nm e p nt ts :: ops =>
    (create_contact st nm e p nt ts).2 ::
      assignedIds (applyOp st (.createOp nm e p nt ts)) ops
  | op :: ops => assignedIds (applyOp st op) ops

/-- Every stored id is bounded by the sequence counter (true of every state
reachable from a fresh database). -/
def SeqBound (st : DBState) : Prop :=
  ∀ r ∈ st.rows, r.id ≤ st.seq

/-- The menu's option 5 maps a blank answer to "do not update" before
calling the accessor: `name=new_name if new_name != "" else None` (and the
same for the other three fields).  A `None` from `safe_input` (interrupted
prompt) is also passed through as `None`. -/
def blankToNone (x : Option String) : Option String :=
  if x = some "" then none else x

/-- The accessor-calling part of menu option 5 ("Atualizar contato"): look
the id up first; if the contact does not exist, print and return to the
menu without touching the table; otherwise call `update_contact` with each
blank answer mapped to `None`.  The boolean is the `changed` result shown
to the user. -/
def menu_update_step (st : DBState) (cid : Nat)
    (nameIn emailIn phoneIn notesIn : Option String) : DBState × Bool :=
  match get_contact st cid with
  | none => (st, false)
  | some _ =>
    update_contact st cid (blankToNone nameIn) (blankToNone emailIn)
      (blankToNone phoneIn) (blankToNone notesIn)

/-- The accessor-calling part of menu option 1 ("Criar novo contato"): the
shell refuses a falsy name (`if not name`), i.e. an interrupted prompt or
an empty answer, and only otherwise calls `create_contact`.  Returns the
new id when a row was inserted. -/
def menu_create_step (st : DBState) (nameIn : Option String)
    (email phone notes : Option String) (ts : String) :
    DBState × Option Nat :=
  match nameIn with
  | none => (st, none)
  | some nm =>
    if nm = "" then (st, none)
    else
      let res := create_contact st nm email phone notes ts
      (res.1, some res.2)

/-- The filesystem seen by export and backup: a map from path to file
content (file content is modelled as its character sequence). -/
def FS : Type := String → Option (List Char)

/-- The module-level constant `DB_FILENAME`. -/
def DB_FILENAME : String := "app_database.db"

/-- A broken-down local timestamp, as `datetime.now()` provides to
`strftime`. -/
structure LocalTime where
  year : Nat
  month : Nat
  day : Nat
  hour : Nat
  minute : Nat
  second : Nat
deriving DecidableEq, Repr

/-- The character for one decimal digit value. -/
def digitChar (n : Nat) : Char := Char.ofNat (48 + n)

/-- `k` zero-padded decimal digits of `n`, most significant first —
`strftime`'s fixed-width numeric fields for in-range values. -/
def padDigits : Nat → Nat → List Char
  | 0, _ => []
  | k + 1, n => padDigits k (n / 10) ++ [digitChar (n % 10)]

/-- `datetime.now().strftime("%Y%m%d_%H%M%S")`. -/
def stampChars (t : LocalTime) : List Char :=
  padDigits 4 t.year ++ padDigits 2 t.month ++ padDigits 2 t.day ++
    '_' :: (padDigits 2 t.hour ++ padDigits 2 t.minute ++ padDigits 2 t.second)

/-- The backup destination: the explicit argument when given, otherwise the
synthesized `f"backup_{timestamp}.db"`. -/
def backupPath (backup_path : Option String) (now : LocalTime) : String :=
  match backup_path with
  | some p => p
  | none => "backup_" ++ String.mk (stampChars now) ++ ".db"

/-- `backup_db(backup_path=None)`: synthesize the destination if absent;
raise `FileNotFoundError` (leaving the filesystem untouched) when the
database file does not exist; otherwise `shutil.copy2` the database file to
the destination and return the path written. -/
def backup_db (fs : FS) (backup_path : Option String) (now : LocalTime) :
    FS × Except String String :=
  let path := backupPath backup_path now
  match fs DB_FILENAME with
  | none => (fs, Except.error "Arquivo do banco não encontrado para backup.")
  | some b => (fun q => if q = path then some b else fs q, Except.ok path)

/-- A CSV field needing quoting under the `csv` module's default
QUOTE_MINIMAL dialect: it contains the delimiter, the quote character, or a
line-terminator character. -/
def needsQuote (f : List Char) : Bool :=
  f.any (fun c => c = ',' || c = '\"' || c = '\r' || c = '\n')

/-- Double each quote character of a field body (the writer's doublequote
escaping). -/
def escField : List Char → List Char
  | [] => []
  | c :: cs =>
    if c = '\"' then '\"' :: '\"' :: escField cs else c :: escField cs

/-- Render one CSV field as `csv.writer` does: quoted (with doubled inner
quotes) exactly when the field contains a special character. -/
def renderField (f : List Char) : List Char :=
  if needsQuote f then '\"' :: (escField f ++ ['\"']) else f

/-- Render one CSV record: fields joined with the comma delimiter. -/
def renderRecord : List (List Char) → List Char
  | [] => []
  | [f] => renderField f
  | f :: fs => renderField f ++ ',' :: renderRecord fs

/-- Render a CSV file: each record followed by the writer's default
`\r\n` line terminator. -/
def renderFile : List (List (List Char)) → List Char
  | [] => []
  | r :: rs => renderRecord r ++ '\r' :: '\n' :: renderFile rs

/-- The string a field value takes in the CSV file: `None` becomes the
empty string, a string is written as is. -/
def optStr : Option String → String
  | none => ""
  | some s => s

/-- The CSV cells of one contact row, in column order. -/
def contactFields (r : Contact) : List (List Char) :=
  [(Nat.repr r.id).data, r.name.data, (optStr r.email).data,
    (optStr r.phone).data, (optStr r.notes).data, r.created_at.data]

/-- The fixed header row `id,name,email,phone,notes,created_at`. -/
def headerFields : List (List Char) :=
  ["id".data, "name".data, "email".data, "phone".data, "notes".data,
    "created_at".data]

/-- The full character content `export_to_csv` writes: the header record
followed by one record per row of `list_contacts(limit=10000)`. -/
def exportContent (st : DBState) : List Char :=
  renderFile (headerFields :: (list_contacts st 10000).map contactFields)

/-- `export_to_csv(csv_filename)`: open the destination in `"w"` mode
(truncating any existing file), write header and rows, return the path
written. -/
def export_to_csv (fs : FS) (st : DBState) (csv_filename : String) :
    FS × String :=
  (fun q => if q = csv_filename then some (exportContent st) else fs q,
    csv_filename)

/-- Reader: consume an unquoted field, stopping at a delimiter or
line-terminator character (which is left in the rest). -/
def parseUnquoted : List Char → List Char × List Char
  | [] => ([], [])
  | c :: cs =>
    if c = ',' || c = '\r' || c = '\n' then ([], c :: cs)
    else
      let fr := parseUnquoted cs
      (c :: fr.1, fr.2)

/-- Reader: consume the body of a quoted field (the opening quote already
read); a doubled quote is a literal quote, a single quote closes the field.
`none` on an unterminated field. -/
def parseQuotedBody : List Char → Option (List Char × List Char)
  | [] => none
  | c :: cs =>
    if c = '\"' then
      match cs with
      | [] => some ([], [])
      | d :: ds =>
        if d = '\"' then (parseQuotedBody ds).map (fun fr => ('\"' :: fr.1, fr.2))
        else some ([], cs)
    else (parseQuotedBody cs).map (fun fr => (c :: fr.1, fr.2))

/-- Reader: one CSV field, quoted or not; returns the field value and the
unconsumed rest (an unterminated quoted field consumes everything). -/
def parseField (cs : List Char) : List Char × List Char :=
  match cs with
  | [] => ([], [])
  | c :: rest =>
    if c = '\"' then
      match parseQuotedBody rest with
      | some fr => fr
      | none => (rest, [])
    else parseUnquoted (c :: rest)

/-- Reader: the fields of one record, consuming the terminating `\r\n`
(or a lone `\r` or `\n`).  The fuel argument is a totality device only:
with fuel at least the number of fields it never runs out. -/
def parseRecordFuel : Nat → List Char → List (List Char) × List Char
  | 0, cs => ([], cs)
  | fuel + 1, cs =>
    let fr := parseField cs
    match fr.2 with
    | [] => ([fr.1], [])
    | c :: r2 =>
      if c = ',' then
        let pr := parseRecordFuel fuel r2
        (fr.1 :: pr.1, pr.2)
      else if c = '\r' then
        match r2 with
        | '\n' :: r3 => ([fr.1], r3)
        | _ => ([fr.1], r2)
      else ([fr.1], r2)

/-- Reader: the records of a CSV character stream (fuel bounds the number
of records; one record always consumes at least one character, so the
stream length suffices). -/
def parseCsvFuel : Nat → List Char → List (List (List Char))
  | 0, _ => []
  | fuel + 1, cs =>
    if cs = [] then []
    else
      let pr := parseRecordFuel (cs.length + 1) cs
      pr.1 :: parseCsvFuel fuel pr.2

/-- Re-reading a CSV file, as `csv.reader` over the written text. -/
def parseCsv (cs : List Char) : List (List (List Char)) :=
  parseCsvFuel (cs.length + 1) cs

/-- A position where a rendered field may legally end: the end of the
stream, a delimiter, or a line-terminator character. -/
def isStopper : List Char → Bool
  | [] => true
  | c :: _ => c = ',' || c = '\r' || c = '\n'

/-- The stream does not begin with a quote character. -/
def headNotQuote : List Char → Bool
  | [] => true
  | c :: _ => ¬ c = '\"'

/-- A concrete stored contact used to instantiate the theorems. -/
def exContact : Contact :=
  ⟨1, "Ana", some "ana@x.com", none, none, "2024-01-01T00:00:00"⟩

/-- A concrete one-row database state used to instantiate the theorems. -/
def exState : DBState := ⟨[exContact], 1⟩

/-- A contact whose name contains no underscore, used to exhibit the
`LIKE` wildcard behaviour of `search_contacts`. -/
def cAB : Contact := ⟨1, "ab", none, none, none, "ts"⟩

/-- The one-row state holding `cAB`. -/
def stAB : DBState := ⟨[cAB], 1⟩

/-- A concrete filesystem holding only the database file. -/
def fsEx : FS :=
  fun q => if q = "app_database.db" then some ['d', 'b'] else none

/-- An empty concrete filesystem. -/
def fsEmpty : FS := fun _ => none

/-- A concrete broken-down local timestamp. -/
def tEx : LocalTime := ⟨2026, 10, 12, 1, 2, 3⟩

theorem updRow_id_eq (cid : Nat) (n e p nt : Option String) (r : Contact) :
    (updRow cid n e p nt r).id = r.id := by
  unfold updRow; split <;> rfl

theorem updRow_of_ne (cid : Nat) (n e p nt : Option String) (r : Contact)
    (h : ¬ r.id = cid) : updRow cid n e p nt r = r := by
  unfold updRow
  simp [h]

theorem updRow_all_none (cid : Nat) (r : Contact) :
    updRow cid none none none none r = r := by
  unfold updRow
  split <;> rfl

theorem find?_map_updRow (rows : List Contact) (cid : Nat)
    (n e p nt : Option String) (j : Nat) :
    (rows.map (updRow cid n e p nt)).find? (fun r => r.id == j) =
      (rows.find? (fun r => r.id == j)).map (updRow cid n e p nt) := by
  induction rows with
  | nil => rfl
  | cons r rs ih =>
    rw [List.map_cons, List.find?_cons, List.find?_cons]
    simp only [updRow_id_eq]
    cases hb : (r.id == j) with
    | true => rfl
    | false => exact ih

theorem get_after_update_ne (st : DBState) (cid : Nat)
    (n e p nt : Option String) (j : Nat) (hj : ¬ j = cid) :
    get_contact (update_contact st cid n e p nt).1 j = get_contact st j := by
  unfold update_contact
  split
  · rfl
  · show (st.rows.map (updRow cid n e p nt)).find? (fun r => r.id == j) =
      st.rows.find? (fun r => r.id == j)
    rw [find?_map_updRow]
    cases hf : st.rows.find? (fun r => r.id == j) with
    | none => rfl
    | some r =>
      have hr := List.find?_some hf
      simp only [beq_iff_eq] at hr
      have hne : ¬ r.id = cid := by rw [hr]; exact hj
      rw [Option.map_some', updRow_of_ne _ _ _ _ _ _ hne]

theorem get_after_update_found (st : DBState) (cid : Nat)
    (n e p nt : Option String) (r : Contact)
    (h : get_contact st cid = some r) :
    get_contact (update_contact st cid n e p nt).1 cid =
      some (updRow cid n e p nt r) := by
  have h' : st.rows.find? (fun x => x.id == cid) = some r := h
  unfold update_contact
  split
  · rename_i hg
    rw [Bool.and_eq_true, Bool.and_eq_true, Bool.and_eq_true] at hg
    obtain ⟨⟨⟨hn, he⟩, hp⟩, hnt⟩ := hg
    rw [Option.isNone_iff_eq_none] at hn he hp hnt
    subst hn he hp hnt
    show get_contact st cid = some (updRow cid none none none none r)
    rw [h, updRow_all_none]
  · show (st.rows.map (updRow cid n e p nt)).find? (fun x => x.id == cid) = _
    rw [find?_map_updRow, h', Option.map_some']

theorem map_updRow_absent (rows : List Contact) (cid : Nat)
    (n e p nt : Option String) (h : ∀ r ∈ rows, ¬ r.id = cid) :
    rows.map (updRow cid n e p nt) = rows := by
  induction rows with
  | nil => rfl
  | cons r rs ih =>
    rw [List.map_cons, updRow_of_ne _ _ _ _ _ _ (h r (by simp)),
      ih (fun x hx => h x (by simp [hx]))]

theorem countP_id_absent (rows : List Contact) (cid : Nat)
    (h : ∀ r ∈ rows, ¬ r.id = cid) :
    rows.countP (fun r => r.id == cid) = 0 := by
  rw [List.countP_eq_zero]
  intro r hr
  simp [h r hr]

/-- C1: for every stored state and every contact id (present or not),
`update_contact` with all four fields absent issues no statement, returns
`False`, and leaves the state (hence every stored row) identical; and
`update_contact` with any fields targeting an id that matches no stored
row returns `False` and leaves the state identical, neither creating nor
modifying any row. -/
theorem update_noop_and_missing_id (st : DBState) (cid : Nat)
    (n e p nt : Option String) :
    update_contact st cid none none none none = (st, false) ∧
    ((∀ r ∈ st.rows, ¬ r.id = cid) →
      update_contact st cid n e p nt = (st, false)) := by
  refine ⟨rfl, fun h => ?_⟩
  unfold update_contact
  split
  · rfl
  · rw [map_updRow_absent _ _ _ _ _ _ h, countP_id_absent _ _ h]
    rfl

/-- Witness for C1 at concrete states: on the one-row database `exState`
(its row has id 1), a no-field update of the existing id 1 reports no
change and leaves the state identical, and an update of the absent id 2
with a field provided also reports no change. -/
theorem update_noop_and_missing_id_witness :
    update_contact exState 1 none none none none = (exState, false) ∧
    update_contact exState 2 (some "X") none none none = (exState, false) :=
  ⟨(update_noop_and_missing_id exState 1 (some "X") none none none).1,
    (update_noop_and_missing_id exState 2 (some "X") none none none).2
      (by decide)⟩

/-- C2: `update_contact` replaces exactly the provided fields of the row
with the given id (the absent fields, the id and the creation timestamp of
that row are untouched), leaves every row with a different id unchanged,
and neither adds nor removes rows. -/
theorem update_partial_frame (st : DBState) (cid : Nat)
    (n e p nt : Option String) :
    (∀ j, ¬ j = cid →
      get_contact (update_contact st cid n e p nt).1 j = get_contact st j) ∧
    (∀ r, get_contact st cid = some r →
      get_contact (update_contact st cid n e p nt).1 cid =
        some { r with
          name := match n with | some v => v | none => r.name,
          email := match e with | some v => some v | none => r.email,
          phone := match p with | some v => some v | none => r.phone,
          notes := match nt with | some v => some v | none => r.notes }) ∧
    (update_contact st cid n e p nt).1.rows.length = st.rows.length := by
  refine ⟨fun j hj => get_after_update_ne st cid n e p nt j hj, ?_, ?_⟩
  · intro r hr
    rw [get_after_update_found st cid n e p nt r hr]
    have hid := List.find?_some (show st.rows.find? (fun x => x.id == cid) = some r from hr)
    simp only [beq_iff_eq] at hid
    unfold updRow
    rw [if_pos hid]
  · unfold update_contact
    split
    · rfl
    · show (st.rows.map (updRow cid n e p nt)).length = st.rows.length
      rw [List.length_map]

/-- Witness for C2 at a concrete input: updating only the name of `exState`'s
row 1 rewrites the name, keeps the stored email and the timestamp, and
leaves the row count at one. -/
theorem update_partial_frame_witness :
    get_contact (update_contact exState 1 (some "Bia") none none none).1 1 =
      some ⟨1, "Bia", some "ana@x.com", none, none, "2024-01-01T00:00:00"⟩ ∧
    get_contact (update_contact exState 1 (some "Bia") none none none).1 7 =
      get_contact exState 7 ∧
    (update_contact exState 1 (some "Bia") none none none).1.rows.length = 1 := by
  have h := update_partial_frame exState 1 (some "Bia") none none none
  refine ⟨?_, h.1 7 (by decide), ?_⟩
  · rw [h.2.1 exContact (by decide)]
    rfl
  · rw [h.2.2]
    rfl

/-- C5: `delete_contact` reports `True` exactly when a row with the given
id was stored (and removed), and a `get_contact` on that id after the
deletion finds nothing. -/
theorem delete_then_get (st : DBState) (cid : Nat) :
    ((delete_contact st cid).2 = true ↔ ∃ r ∈ st.rows, r.id = cid) ∧
    get_contact (delete_contact st cid).1 cid = none := by
  constructor
  · simp [delete_contact, List.countP_pos_iff]
  · unfold delete_contact get_contact
    rw [List.find?_eq_none]
    intro r hr
    have := List.of_mem_filter hr
    simpa using this

/-- C4 counterexample: `create_contact` called with an empty name on a
fresh database does insert a row (the accessor has no emptiness check and
SQLite's NOT NULL accepts the empty string). -/
theorem create_empty_name_inserted :
    ((create_contact initState "" none none none "2024-01-01T00:00:00").1).rows =
      [⟨1, "", none, none, none, "2024-01-01T00:00:00"⟩] := rfl

/-- C4 amended: at the accessor layer, `create_contact` with an empty name
still inserts a row; the emptiness of the name is enforced only by the
interactive shell, whose create flow refuses a blank (or interrupted) name
answer and never calls the accessor. -/
theorem create_empty_name_behavior (st : DBState) (e p nt : Option String)
    (ts : String) :
    ((create_contact st "" e p nt ts).1).rows.length = st.rows.length + 1 ∧
    menu_create_step st (some "") e p nt ts = (st, none) ∧
    menu_create_step st none e p nt ts = (st, none) := by
  refine ⟨?_, rfl, rfl⟩
  show (st.rows ++ [_]).length = _
  rw [List.length_append]
  rfl

theorem mem_insertDesc (c x : Contact) (l : List Contact) :
    x ∈ insertDesc c l ↔ x = c ∨ x ∈ l := by
  induction l with
  | nil => simp [insertDesc]
  | cons y ys ih =>
    unfold insertDesc
    split
    · rw [List.mem_cons, ih, List.mem_cons]
      tauto
    · rw [List.mem_cons, List.mem_cons]

theorem mem_sortByIdDesc (x : Contact) (l : List Contact) :
    x ∈ sortByIdDesc l ↔ x ∈ l := by
  induction l with
  | nil => exact Iff.rfl
  | cons y ys ih =>
    unfold sortByIdDesc
    rw [mem_insertDesc, ih, List.mem_cons]

theorem pairwise_insertDesc (c : Contact) (l : List Contact)
    (h : l.Pairwise (fun a b => b.id ≤ a.id)) :
    (insertDesc c l).Pairwise (fun a b => b.id ≤ a.id) := by
  induction l with
  | nil => simp [insertDesc]
  | cons y ys ih =>
    rw [List.pairwise_cons] at h
    obtain ⟨hy, hys⟩ := h
    unfold insertDesc
    split
    · rename_i hc
      rw [List.pairwise_cons]
      refine ⟨?_, ih hys⟩
      intro b hb
      rcases (mem_insertDesc c b ys).mp hb with rfl | hb
      · exact hc
      · exact hy b hb
    · rename_i hc
      rw [List.pairwise_cons]
      refine ⟨?_, ?_⟩
      · intro b hb
        rcases List.mem_cons.mp hb with rfl | hb
        · omega
        · have := hy b hb
          omega
      · rw [List.pairwise_cons]
        exact ⟨hy, hys⟩

theorem pairwise_sortByIdDesc (l : List Contact) :
    (sortByIdDesc l).Pairwise (fun a b => b.id ≤ a.id) := by
  induction l with
  | nil => exact List.Pairwise.nil
  | cons y ys ih => exact pairwise_insertDesc y _ ih

/-- C10: a negative limit disables the cap — `list_contacts` then returns
all stored rows (still ordered by id descending) — while a non-negative
limit caps the number of returned rows; the output is ordered by id
descending in every case. -/
theorem list_negative_limit (st : DBState) (lim : Int) :
    (lim < 0 → list_contacts st lim = sortByIdDesc st.rows ∧
      ∀ r ∈ st.rows, r ∈ list_contacts st lim) ∧
    (0 ≤ lim → (list_contacts st lim).length ≤ lim.toNat) ∧
    (list_contacts st lim).Pairwise (fun a b => b.id ≤ a.id) := by
  refine ⟨fun hneg => ⟨?_, ?_⟩, fun hpos => ?_, ?_⟩
  · unfold list_contacts
    rw [if_pos hneg]
  · intro r hr
    unfold list_contacts
    rw [if_pos hneg]
    exact (mem_sortByIdDesc r _).mpr hr
  · unfold list_contacts
    rw [if_neg (by omega)]
    rw [List.length_take]
    exact min_le_left _ _
  · unfold list_contacts
    split
    · exact pairwise_sortByIdDesc _
    · exact List.Pairwise.sublist (List.take_sublist _ _)
        (pairwise_sortByIdDesc st.rows)

/-- Witness for C10: on the one-row state, limit `-1` returns the whole
sorted table and limit `0` returns at most zero rows. -/
theorem list_negative_limit_witness :
    list_contacts exState (-1) = sortByIdDesc exState.rows ∧
    (list_contacts exState 0).length ≤ (0 : Int).toNat := by
  exact ⟨((list_negative_limit exState (-1)).1 (by decide)).1,
    (list_negative_limit exState 0).2.1 (by decide)⟩

theorem blankToNone_no_blank (x : Option String) :
    ¬ blankToNone x = some "" := by
  unfold blankToNone
  split
  · simp
  · rename_i h
    exact h

/-- C9: in the interactive update flow, a blank answer for a field is
mapped to "do not update" exactly as an unanswered prompt is, so the two
are indistinguishable (first four conjuncts, one per field); leaving every
prompt blank applies no change at all; and no field of the stored row can
be cleared to blank by the flow — a field can only be blank afterwards if
it already was. -/
theorem menu_update_blank_equiv (st : DBState) (cid : Nat)
    (i1 i2 i3 i4 : Option String) :
    menu_update_step st cid (some "") i2 i3 i4 =
      menu_update_step st cid none i2 i3 i4 ∧
    menu_update_step st cid i1 (some "") i3 i4 =
      menu_update_step st cid i1 none i3 i4 ∧
    menu_update_step st cid i1 i2 (some "") i4 =
      menu_update_step st cid i1 i2 none i4 ∧
    menu_update_step st cid i1 i2 i3 (some "") =
      menu_update_step st cid i1 i2 i3 none ∧
    menu_update_step st cid (some "") (some "") (some "") (some "") =
      (st, false) ∧
    (∀ r q, get_contact st cid = some r →
      get_contact (menu_update_step st cid i1 i2 i3 i4).1 cid = some q →
      (q.name = "" → r.name = "") ∧
      (q.email = some "" → r.email = some "") ∧
      (q.phone = some "" → r.phone = some "") ∧
      (q.notes = some "" → r.notes = some "")) := by
  have hbb : blankToNone (some "") = blankToNone none := rfl
  refine ⟨by rw [menu_update_step, menu_update_step, hbb],
    by rw [menu_update_step, menu_update_step, hbb],
    by rw [menu_update_step, menu_update_step, hbb],
    by rw [menu_update_step, menu_update_step, hbb], ?_, ?_⟩
  · unfold menu_update_step
    cases hg : get_contact st cid with
    | none => rfl
    | some r => rfl
  · intro r q hr hq
    have hid := List.find?_some
      (show st.rows.find? (fun x => x.id == cid) = some r from hr)
    simp only [beq_iff_eq] at hid
    unfold menu_update_step at hq
    rw [hr] at hq
    simp only at hq
    rw [get_after_update_found st cid (blankToNone i1) (blankToNone i2)
      (blankToNone i3) (blankToNone i4) r hr] at hq
    obtain rfl : updRow cid (blankToNone i1) (blankToNone i2)
        (blankToNone i3) (blankToNone i4) r = q := Option.some.inj hq
    simp only [updRow, hid, if_pos]
    refine ⟨?_, ?_, ?_, ?_⟩
    · cases h1 : blankToNone i1 with
      | none => simp
      | some v =>
        simp only
        intro hv
        rw [hv] at h1
        exact absurd h1 (blankToNone_no_blank i1)
    · cases h2 : blankToNone i2 with
      | none => simp
      | some v =>
        simp only
        intro hv
        rw [hv] at h2
        exact absurd h2 (blankToNone_no_blank i2)
    · cases h3 : blankToNone i3 with
      | none => simp
      | some v =>
        simp only
        intro hv
        rw [hv] at h3
        exact absurd h3 (blankToNone_no_blank i3)
    · cases h4 : blankToNone i4 with
      | none => simp
      | some v =>
        simp only
        intro hv
        rw [hv] at h4
        exact absurd h4 (blankToNone_no_blank i4)

/-- Witness for C9 at a concrete input: on the one-row state, answering
every prompt with a blank string applies no change. -/
theorem menu_update_blank_equiv_witness :
    menu_update_step exState 1 (some "") (some "") (some "") (some "") =
      (exState, false) :=
  (menu_update_blank_equiv exState 1 none none none none).2.2.2.2.1

theorem likeMatch_percent_cons (ps : List Char) (s : List Char) :
    likeMatch ('%' :: ps) s = (suffixes s).any (fun t => likeMatch ps t) := by
  simp [likeMatch]

theorem likeMatch_percent_only (s : List Char) : likeMatch ['%'] s = true := by
  induction s with
  | nil => rfl
  | cons c cs ih =>
    rw [likeMatch_percent_cons] at ih ⊢
    rw [suffixes, List.any_cons]
    simp [ih]

theorem likeMatch_double_percent (s : List Char) :
    likeMatch ['%', '%'] s = true := by
  rw [likeMatch_percent_cons]
  cases s with
  | nil => rfl
  | cons c cs =>
    rw [suffixes, List.any_cons, likeMatch_percent_only]
    rfl

theorem noWildcards_cons (c : Char) (ts : List Char)
    (h : noWildcards (c :: ts) = true) :
    ¬ c = '%' ∧ ¬ c = '_' ∧ noWildcards ts = true := by
  unfold noWildcards at h ⊢
  rw [List.all_cons, Bool.and_eq_true] at h
  obtain ⟨hc, hts⟩ := h
  simp only [decide_eq_true_eq] at hc
  exact ⟨hc.1, hc.2, hts⟩

theorem likeMatch_plain_append_percent (t : List Char) (s : List Char)
    (h : noWildcards t = true) :
    likeMatch (t ++ ['%']) s = startsWithFold t s := by
  induction t generalizing s with
  | nil =>
    rw [List.nil_append, likeMatch_percent_only]
    rfl
  | cons c ts ih =>
    obtain ⟨h1, h2, h3⟩ := noWildcards_cons c ts h
    rw [List.cons_append]
    cases s with
    | nil =>
      show likeMatch (c :: (ts ++ ['%'])) [] = startsWithFold (c :: ts) []
      simp only [likeMatch, if_neg h1, if_neg h2]
      rfl
    | cons d ds =>
      show likeMatch (c :: (ts ++ ['%'])) (d :: ds) =
        startsWithFold (c :: ts) (d :: ds)
      simp only [likeMatch, if_neg h1, if_neg h2]
      show ((lowerChar c == lowerChar d) && likeMatch (ts ++ ['%']) ds) = _
      rw [ih ds h3]
      rfl

theorem likeMatch_pattern_ciSubstr (t s : List Char)
    (h : noWildcards t = true) :
    likeMatch ('%' :: (t ++ ['%'])) s = ciSubstr t s := by
  rw [likeMatch_percent_cons]
  unfold ciSubstr
  have hfun : (fun t2 => likeMatch (t ++ ['%']) t2) = startsWithFold t :=
    funext (fun t2 => likeMatch_plain_append_percent t t2 h)
  rw [hfun]

theorem rowLike_eq_rowCiSubstr (term : String) (r : Contact)
    (h : noWildcards term.data = true) :
    rowLike term r = rowCiSubstr term r := by
  cases he : r.email <;> cases hp : r.phone <;> cases hn : r.notes <;>
    simp [rowLike, rowCiSubstr, colLike, colCiSubstr, mkLikePattern, he, hp,
      hn, likeMatch_pattern_ciSubstr _ _ h]

/-- C3 counterexample: the claim fails as stated, because the term is
bound into an SQLite `LIKE` pattern in which `_` is a one-character
wildcard: `search_contacts` for the term `"_"` returns the contact named
`"ab"`, although `"_"` is not a case-insensitive substring of any of its
fields. -/
theorem search_substring_counterexample :
    search_contacts stAB "_" = [cAB] ∧ rowCiSubstr "_" cAB = false := by
  exact ⟨by decide, by decide⟩

/-- C3 amended: for every term containing no `LIKE` wildcard character
(`%` or `_`), `search_contacts` returns exactly the contacts for which the
term is a case-insensitive substring of name, email, phone, or notes
(OR'd across the four fields, an absent field matching nothing), ordered
by identifier descending; for terms with wildcards, `%` matches any
sequence and `_` any single character.  In particular the empty term (it
has no wildcards) returns every stored contact. -/
theorem search_substring_wildcard_free (st : DBState) (term : String)
    (h : noWildcards term.data = true) :
    search_contacts st term =
      sortByIdDesc (st.rows.filter (rowCiSubstr term)) ∧
    (search_contacts st term).Pairwise (fun a b => b.id ≤ a.id) ∧
    ∀ r ∈ st.rows, r ∈ search_contacts st "" := by
  refine ⟨?_, ?_, ?_⟩
  · unfold search_contacts
    congr 1
    apply List.filter_congr
    intro r hr
    exact rowLike_eq_rowCiSubstr term r h
  · unfold search_contacts
    exact pairwise_sortByIdDesc _
  · intro r hr
    unfold search_contacts
    rw [mem_sortByIdDesc, List.mem_filter]
    refine ⟨hr, ?_⟩
    have hp : mkLikePattern "" = ['%', '%'] := rfl
    unfold rowLike
    rw [hp, likeMatch_double_percent]
    rfl

/-- Witness for C3 (amended) at a concrete input: the uppercase term
`"AN"` (wildcard-free) finds the row whose stored email contains `"an"`,
and the empty term returns the stored row. -/
theorem search_substring_wildcard_free_witness :
    search_contacts exState "AN" =
      sortByIdDesc (exState.rows.filter (rowCiSubstr "AN")) ∧
    ∀ r ∈ exState.rows, r ∈ search_contacts exState "" := by
  have h := search_substring_wildcard_free exState "AN" (by decide)
  exact ⟨h.1, h.2.2⟩

theorem applyOp_seq_le (st : DBState) (op : Op) :
    st.seq ≤ (applyOp st op).seq := by
  cases op with
  | createOp nm e p nt ts =>
    show st.seq ≤ st.seq + 1
    omega
  | updateOp cid n e p nt =>
    show st.seq ≤ (update_contact st cid n e p nt).1.seq
    unfold update_contact
    split
    · exact Nat.le_refl _
    · exact Nat.le_refl _
  | deleteOp cid => exact Nat.le_refl _

theorem runOps_seq_le (st : DBState) (ops : List Op) :
    st.seq ≤ (runOps st ops).seq := by
  induction ops generalizing st with
  | nil => exact Nat.le_refl _
  | cons op ops ih => exact Nat.le_trans (applyOp_seq_le st op) (ih _)

theorem assignedIds_bounds (ops : List Op) (st : DBState) :
    (∀ i ∈ assignedIds st ops, st.seq < i ∧ i ≤ (runOps st ops).seq) ∧
    (assignedIds st ops).Pairwise (· < ·) := by
  induction ops generalizing st with
  | nil => exact ⟨by simp [assignedIds], List.Pairwise.nil⟩
  | cons op ops ih =>
    cases op with
    | createOp nm e p nt ts =>
      obtain ⟨hb, hp⟩ := ih (applyOp st (.createOp nm e p nt ts))
      have hseq : (applyOp st (.createOp nm e p nt ts)).seq = st.seq + 1 := rfl
      constructor
      · intro i hi
        rcases List.mem_cons.mp hi with rfl | hi
        · refine ⟨Nat.lt_succ_self _, ?_⟩
          show st.seq + 1 ≤ (runOps (applyOp st _) ops).seq
          rw [← hseq]
          exact runOps_seq_le _ ops
        · obtain ⟨h1, h2⟩ := hb i hi
          rw [hseq] at h1
          exact ⟨by omega, h2⟩
      · refine List.Pairwise.cons ?_ hp
        intro i hi
        have := (hb i hi).1
        rw [hseq] at this
        show st.seq + 1 < i
        exact this
    | updateOp cid n e p nt =>
      obtain ⟨hb, hp⟩ := ih (applyOp st (.updateOp cid n e p nt))
      refine ⟨?_, hp⟩
      intro i hi
      obtain ⟨h1, h2⟩ := hb i hi
      have := applyOp_seq_le st (.updateOp cid n e p nt)
      exact ⟨by omega, h2⟩
    | deleteOp cid =>
      obtain ⟨hb, hp⟩ := ih (applyOp st (.deleteOp cid))
      refine ⟨?_, hp⟩
      intro i hi
      obtain ⟨h1, h2⟩ := hb i hi
      have := applyOp_seq_le st (.deleteOp cid)
      exact ⟨by omega, h2⟩

theorem seqBound_applyOp (st : DBState) (op : Op) (h : SeqBound st) :
    SeqBound (applyOp st op) := by
  cases op with
  | createOp nm e p nt ts =>
    intro r hr
    have hr' : r ∈ st.rows ++ [⟨st.seq + 1, nm, e, p, nt, ts⟩] := hr
    rcases List.mem_append.mp hr' with hm | hm
    · have := h r hm
      show r.id ≤ st.seq + 1
      omega
    · rw [List.mem_singleton] at hm
      subst hm
      exact Nat.le_refl _
  | updateOp cid n e p nt =>
    intro r hr
    have hr' : r ∈ (update_contact st cid n e p nt).1.rows := hr
    show r.id ≤ (update_contact st cid n e p nt).1.seq
    by_cases hg : (n.isNone && e.isNone && p.isNone && nt.isNone) = true
    · unfold update_contact at hr' ⊢
      rw [if_pos hg] at hr' ⊢
      exact h r hr'
    · unfold update_contact at hr' ⊢
      rw [if_neg hg] at hr' ⊢
      obtain ⟨x, hx, rfl⟩ := List.mem_map.mp hr'
      rw [updRow_id_eq]
      exact h x hx
  | deleteOp cid =>
    intro r hr
    exact h r (List.mem_of_mem_filter hr)

theorem seqBound_runOps (ops : List Op) (st : DBState) (h : SeqBound st) :
    SeqBound (runOps st ops) := by
  induction ops generalizing st with
  | nil => exact h
  | cons op ops ih => exact ih _ (seqBound_applyOp st op h)

theorem get_contact_gt_seq (st : DBState) (h : SeqBound st) (j : Nat)
    (hj : st.seq < j) : get_contact st j = none := by
  unfold get_contact
  rw [List.find?_eq_none]
  intro r hr
  have := h r hr
  simp only [beq_iff_eq]
  omega

theorem find?_append_of_left_none {α : Type} (p : α → Bool)
    (l1 l2 : List α) (h : l1.find? p = none) :
    (l1 ++ l2).find? p = l2.find? p := by
  induction l1 with
  | nil => rfl
  | cons a l ih =>
    rw [List.find?_eq_none] at h
    have ha : p a = false := by
      have := h a (by simp)
      cases hpa : p a
      · rfl
      · exact absurd hpa this
    rw [List.cons_append, List.find?_cons, ha]
    exact ih (by rw [List.find?_eq_none]; intro x hx; exact h x (by simp [hx]))

/-- C6: after any interaction history started on a fresh database, the ids
handed out by the `create_contact` calls are strictly increasing (hence
all distinct, and never reused even after deletions); a further create
with only a name returns the next sequence value as its id — an id that
matches no stored row beforehand — and the stored record under that id
has exactly that name, absent email, phone and notes, the given creation
timestamp, and an id larger than every id ever assigned before. -/
theorem create_fresh_and_increasing (ops : List Op) (nm ts : String) :
    (assignedIds initState ops).Pairwise (· < ·) ∧
    (create_contact (runOps initState ops) nm none none none ts).2 =
      (runOps initState ops).seq + 1 ∧
    get_contact (runOps initState ops)
      (create_contact (runOps initState ops) nm none none none ts).2 =
      none ∧
    get_contact (create_contact (runOps initState ops) nm none none none ts).1
      (create_contact (runOps initState ops) nm none none none ts).2 =
      some ⟨(runOps initState ops).seq + 1, nm, none, none, none, ts⟩ ∧
    ∀ i ∈ assignedIds initState ops,
      i < (create_contact (runOps initState ops) nm none none none ts).2 := by
  have hsb : SeqBound (runOps initState ops) :=
    seqBound_runOps ops initState (by intro r hr; cases hr)
  have hnone : get_contact (runOps initState ops)
      ((runOps initState ops).seq + 1) = none :=
    get_contact_gt_seq _ hsb _ (Nat.lt_succ_self _)
  refine ⟨(assignedIds_bounds ops initState).2, rfl, hnone, ?_, ?_⟩
  · show ((runOps initState ops).rows ++
      [(⟨(runOps initState ops).seq + 1, nm, none, none, none, ts⟩ : Contact)]).find?
        (fun r : Contact => r.id == (runOps initState ops).seq + 1) = _
    rw [find?_append_of_left_none _ _ _ hnone]
    rw [List.find?_cons]
    simp
  · intro i hi
    have h2 := ((assignedIds_bounds ops initState).1 i hi).2
    show i < (runOps initState ops).seq + 1
    omega

/-- Witness for C6 at a concrete history: create "Ana", delete her row,
then the assigned ids are increasing and a create of "Bob" gets the fresh
id 2, stored with absent optional fields. -/
theorem create_fresh_and_increasing_witness :
    (assignedIds initState [Op.createOp "Ana" none none none "t0",
      Op.deleteOp 1]).Pairwise (· < ·) ∧
    (create_contact (runOps initState [Op.createOp "Ana" none none none "t0",
      Op.deleteOp 1]) "Bob" none none none "t1").2 =
      (runOps initState [Op.createOp "Ana" none none none "t0",
        Op.deleteOp 1]).seq + 1 ∧
    get_contact (runOps initState [Op.createOp "Ana" none none none "t0",
      Op.deleteOp 1])
      (create_contact (runOps initState [Op.createOp "Ana" none none none "t0",
        Op.deleteOp 1]) "Bob" none none none "t1").2 = none ∧
    get_contact (create_contact (runOps initState
        [Op.createOp "Ana" none none none "t0", Op.deleteOp 1])
        "Bob" none none none "t1").1
      (create_contact (runOps initState [Op.createOp "Ana" none none none "t0",
        Op.deleteOp 1]) "Bob" none none none "t1").2 =
      some ⟨(runOps initState [Op.createOp "Ana" none none none "t0",
        Op.deleteOp 1]).seq + 1, "Bob", none, none, none, "t1"⟩ ∧
    ∀ i ∈ assignedIds initState [Op.createOp "Ana" none none none "t0",
      Op.deleteOp 1],
      i < (create_contact (runOps initState
        [Op.createOp "Ana" none none none "t0", Op.deleteOp 1])
        "Bob" none none none "t1").2 :=
  create_fresh_and_increasing [Op.createOp "Ana" none none none "t0",
    Op.deleteOp 1] "Bob" "t1"

theorem padDigits_length (k n : Nat) : (padDigits k n).length = k := by
  induction k generalizing n with
  | zero => rfl
  | succ k ih =>
    rw [padDigits, List.length_append, ih]
    rfl

theorem padDigits_digits (k n : Nat) :
    ∀ c ∈ padDigits k n, c.isDigit = true := by
  induction k generalizing n with
  | zero =>
    intro c hc
    cases hc
  | succ k ih =>
    intro c hc
    rw [padDigits] at hc
    rcases List.mem_append.mp hc with hm | hm
    · exact ih _ c hm
    · rw [List.mem_singleton] at hm
      subst hm
      have h10 : n % 10 < 10 := Nat.mod_lt _ (by omega)
      unfold digitChar
      set r := n % 10 with hr
      interval_cases r <;> decide

theorem stamp_shape (t : LocalTime) :
    ∃ a b, stampChars t = a ++ '_' :: b ∧ a.length = 8 ∧ b.length = 6 ∧
      (∀ c ∈ a, c.isDigit = true) ∧ (∀ c ∈ b, c.isDigit = true) := by
  refine ⟨padDigits 4 t.year ++ padDigits 2 t.month ++ padDigits 2 t.day,
    padDigits 2 t.hour ++ padDigits 2 t.minute ++ padDigits 2 t.second,
    ?_, ?_, ?_, ?_, ?_⟩
  · unfold stampChars
    simp [List.append_assoc]
  · simp [padDigits_length]
  · simp [padDigits_length]
  · intro c hc
    simp only [List.mem_append] at hc
    rcases hc with (hm | hm) | hm
    · exact padDigits_digits 4 t.year c hm
    · exact padDigits_digits 2 t.month c hm
    · exact padDigits_digits 2 t.day c hm
  · intro c hc
    simp only [List.mem_append] at hc
    rcases hc with (hm | hm) | hm
    · exact padDigits_digits 2 t.hour c hm
    · exact padDigits_digits 2 t.minute c hm
    · exact padDigits_digits 2 t.second c hm

/-- C7: with no destination, backup synthesizes
`backup_<YYYYMMDD_HHMMSS>.db` from the given local timestamp (eight
digits, an underscore, six digits); when the primary database file is
absent it fails with the "source not found" error and leaves the
filesystem untouched; when present, it writes a byte-for-byte copy of the
database file at the destination, changes no other path, and returns the
path written. -/
theorem backup_behavior (fs : FS) (dst : Option String) (t : LocalTime) :
    (backupPath none t = "backup_" ++ String.mk (stampChars t) ++ ".db" ∧
      ∃ a b, stampChars t = a ++ '_' :: b ∧ a.length = 8 ∧ b.length = 6 ∧
        (∀ c ∈ a, c.isDigit = true) ∧ (∀ c ∈ b, c.isDigit = true)) ∧
    (fs DB_FILENAME = none →
      backup_db fs dst t =
        (fs, Except.error "Arquivo do banco não encontrado para backup.")) ∧
    (∀ bytes, fs DB_FILENAME = some bytes →
      (backup_db fs dst t).2 = Except.ok (backupPath dst t) ∧
      (backup_db fs dst t).1 (backupPath dst t) = some bytes ∧
      ∀ q, ¬ q = backupPath dst t → (backup_db fs dst t).1 q = fs q) := by
  refine ⟨⟨rfl, stamp_shape t⟩, ?_, ?_⟩
  · intro h
    unfold backup_db
    rw [h]
  · intro bytes h
    unfold backup_db
    rw [h]
    refine ⟨rfl, ?_, ?_⟩
    · show (if backupPath dst t = backupPath dst t then some bytes
        else fs (backupPath dst t)) = some bytes
      rw [if_pos rfl]
    · intro q hq
      show (if q = backupPath dst t then some bytes else fs q) = fs q
      rw [if_neg hq]

/-- Witness for C7 at concrete inputs: on a filesystem holding the
database file with content `db`, backup succeeds and writes that content
at the synthesized path; on an empty filesystem it fails with the
"source not found" error and changes nothing. -/
theorem backup_behavior_witness :
    (backup_db fsEx none tEx).2 = Except.ok (backupPath none tEx) ∧
    (backup_db fsEx none tEx).1 (backupPath none tEx) = some ['d', 'b'] ∧
    backup_db fsEmpty none tEx =
      (fsEmpty, Except.error "Arquivo do banco não encontrado para backup.") := by
  have h := backup_behavior fsEx none tEx
  have h2 := backup_behavior fsEmpty none tEx
  exact ⟨(h.2.2 ['d', 'b'] rfl).1, (h.2.2 ['d', 'b'] rfl).2.1, h2.2.1 rfl⟩

theorem needsQuote_cons (a : Char) (f : List Char) :
    needsQuote (a :: f) =
      ((a = ',' || a = '\"' || a = '\r' || a = '\n') || needsQuote f) := by
  simp [needsQuote]

theorem parseUnquoted_clean (f rest : List Char)
    (hf : needsQuote f = false) (hr : isStopper rest = true) :
    parseUnquoted (f ++ rest) = (f, rest) := by
  induction f with
  | nil =>
    rw [List.nil_append]
    cases rest with
    | nil => rfl
    | cons c r2 =>
      have hc : (c = ',' ∨ c = '\r') ∨ c = '\n' := by
        simpa [isStopper] using hr
      rcases hc with (rfl | rfl) | rfl <;> simp [parseUnquoted]
  | cons a f' ih =>
    rw [needsQuote_cons, Bool.or_eq_false_iff] at hf
    obtain ⟨ha, hf'⟩ := hf
    simp only [Bool.or_eq_false_iff, decide_eq_false_iff_not] at ha
    obtain ⟨⟨⟨ha1, _⟩, ha3⟩, ha4⟩ := ha
    rw [List.cons_append, parseUnquoted]
    rw [if_neg (by simp [ha1, ha3, ha4])]
    rw [ih hf']

theorem parseQuotedBody_esc (f rest : List Char)
    (hr : headNotQuote rest = true) :
    parseQuotedBody (escField f ++ '\"' :: rest) = some (f, rest) := by
  induction f with
  | nil =>
    rw [show escField [] = [] from rfl, List.nil_append]
    cases rest with
    | nil => rfl
    | cons d ds =>
      have hd : ¬ d = '\"' := by simpa [headNotQuote] using hr
      simp [parseQuotedBody, hd]
  | cons a f' ih =>
    by_cases ha : a = '\"'
    · subst ha
      rw [show escField ('\"' :: f') = '\"' :: '\"' :: escField f' from by
        simp [escField]]
      rw [List.cons_append, List.cons_append]
      have step : parseQuotedBody
          ('\"' :: '\"' :: (escField f' ++ '\"' :: rest)) =
          (parseQuotedBody (escField f' ++ '\"' :: rest)).map
            (fun fr => ('\"' :: fr.1, fr.2)) := by
        simp [parseQuotedBody]
      rw [step, ih]
      rfl
    · rw [show escField (a :: f') = a :: escField f' from by
        simp [escField, ha]]
      rw [List.cons_append, parseQuotedBody.eq_def]
      simp only [ha, if_false, ih]
      simp [ih]

theorem stopper_not_quote (rest : List Char) (hr : isStopper rest = true) :
    headNotQuote rest = true := by
  cases rest with
  | nil => rfl
  | cons c r2 =>
    have hc : (c = ',' ∨ c = '\r') ∨ c = '\n' := by
      simpa [isStopper] using hr
    rcases hc with (rfl | rfl) | rfl <;> rfl

theorem parseField_render (f rest : List Char) (hr : isStopper rest = true) :
    parseField (renderField f ++ rest) = (f, rest) := by
  by_cases hq : needsQuote f = true
  · rw [show renderField f = '\"' :: (escField f ++ ['\"']) from by
      simp [renderField, hq]]
    rw [List.cons_append, List.append_assoc]
    rw [show ['\"'] ++ rest = '\"' :: rest from rfl]
    rw [parseField.eq_def]
    simp only [if_pos rfl]
    rw [parseQuotedBody_esc f rest (stopper_not_quote rest hr)]
    simp
  · have hq' : needsQuote f = false := eq_false_of_ne_true hq
    rw [show renderField f = f from by simp [renderField, hq']]
    cases f with
    | nil =>
      rw [List.nil_append]
      cases rest with
      | nil => rfl
      | cons c r2 =>
        have hc : (c = ',' ∨ c = '\r') ∨ c = '\n' := by
          simpa [isStopper] using hr
        have hcq : ¬ c = '\"' := by
          rcases hc with (rfl | rfl) | rfl <;> decide
        rw [parseField.eq_def]
        simp only [hcq, if_false]
        rcases hc with (rfl | rfl) | rfl <;> simp [parseUnquoted]
    | cons a f' =>
      have ha : ¬ a = '\"' := by
        rw [needsQuote_cons, Bool.or_eq_false_iff] at hq'
        have := hq'.1
        simp only [Bool.or_eq_false_iff, decide_eq_false_iff_not] at this
        exact this.1.1.2
      rw [List.cons_append, parseField.eq_def]
      simp only [ha, if_false]
      have := parseUnquoted_clean (a :: f') rest hq' hr
      rw [List.cons_append] at this
      exact this

theorem parseRecordFuel_render (fds : List (List Char)) (fuel : Nat)
    (rest : List Char) (hne : ¬ fds = []) (hfuel : fds.length ≤ fuel) :
    parseRecordFuel fuel (renderRecord fds ++ '\r' :: '\n' :: rest) =
      (fds, rest) := by
  induction fds generalizing fuel rest with
  | nil => exact absurd rfl hne
  | cons f fs' ih =>
    cases fuel with
    | zero => simp at hfuel
    | succ fu =>
      cases fs' with
      | nil =>
        rw [show renderRecord [f] = renderField f from rfl]
        rw [parseRecordFuel.eq_def]
        simp only [parseField_render f ('\r' :: '\n' :: rest) rfl]
        simp
      | cons g fs'' =>
        rw [show renderRecord (f :: g :: fs'') =
          renderField f ++ ',' :: renderRecord (g :: fs'') from rfl]
        rw [List.append_assoc, List.cons_append]
        have hih := ih fu rest (by simp) (by simp at hfuel ⊢; omega)
        simp [parseRecordFuel, parseField_render f
          (',' :: (renderRecord (g :: fs'') ++ '\r' :: '\n' :: rest)) rfl,
          hih]

theorem renderRecord_length (fds : List (List Char)) :
    fds.length ≤ (renderRecord fds).length + 1 := by
  induction fds with
  | nil => simp
  | cons f fs' ih =>
    cases fs' with
    | nil => simp
    | cons g fs'' =>
      rw [show renderRecord (f :: g :: fs'') =
        renderField f ++ ',' :: renderRecord (g :: fs'') from rfl]
      simp only [List.length_cons, List.length_append]
      simp only [List.length_cons] at ih
      omega

theorem renderFile_length (recs : List (List (List Char))) :
    recs.length ≤ (renderFile recs).length := by
  induction recs with
  | nil => simp
  | cons r rs ih =>
    rw [show renderFile (r :: rs) =
      renderRecord r ++ '\r' :: '\n' :: renderFile rs from rfl]
    rw [List.length_cons, List.length_append, List.length_cons,
      List.length_cons]
    omega

theorem parseCsvFuel_render (recs : List (List (List Char))) (fuel : Nat)
    (hne : ∀ r ∈ recs, ¬ r = []) (hfuel : recs.length ≤ fuel) :
    parseCsvFuel fuel (renderFile recs) = recs := by
  induction recs generalizing fuel with
  | nil =>
    cases fuel with
    | zero => rfl
    | succ fu => simp [renderFile, parseCsvFuel]
  | cons r rs ih =>
    cases fuel with
    | zero => simp at hfuel
    | succ fu =>
      rw [show renderFile (r :: rs) =
        renderRecord r ++ '\r' :: '\n' :: renderFile rs from rfl]
      rw [parseCsvFuel]
      have hcs : ¬ (renderRecord r ++ '\r' :: '\n' :: renderFile rs) = [] := by
        intro hc
        have := congrArg List.length hc
        simp at this
      rw [if_neg hcs]
      have hlen : r.length ≤
          (renderRecord r ++ '\r' :: '\n' :: renderFile rs).length + 1 := by
        rw [List.length_append]
        have := renderRecord_length r
        omega
      rw [parseRecordFuel_render r _ (renderFile rs) (hne r (by simp)) hlen]
      show r :: parseCsvFuel fu (renderFile rs) = r :: rs
      rw [ih fu (fun x hx => hne x (by simp [hx])) (by simp at hfuel ⊢; omega)]

/-- C8: `export_to_csv` returns the path written, stores at that path the
UTF-8 comma-delimited text consisting of the header record
`id,name,email,phone,notes,created_at` followed by one record per contact
of `list_contacts(limit=10000)` (the 10000 most recent contacts),
overwriting whatever the destination held and touching no other path; and
re-reading the written text with the CSV reader yields exactly the header
row followed by the rows of `list_contacts(limit=10000)` field-for-field
(an absent field having been written as the empty cell). -/
theorem export_csv_roundtrip (fs : FS) (st : DBState) (fname : String) :
    (export_to_csv fs st fname).2 = fname ∧
    (export_to_csv fs st fname).1 fname = some (exportContent st) ∧
    (∀ q, ¬ q = fname → (export_to_csv fs st fname).1 q = fs q) ∧
    parseCsv (exportContent st) =
      headerFields :: (list_contacts st 10000).map contactFields := by
  refine ⟨rfl, ?_, ?_, ?_⟩
  · show (if fname = fname then some (exportContent st) else fs fname) = _
    rw [if_pos rfl]
  · intro q hq
    show (if q = fname then some (exportContent st) else fs q) = fs q
    rw [if_neg hq]
  · unfold parseCsv exportContent
    apply parseCsvFuel_render
    · intro r hr
      rcases List.mem_cons.mp hr with rfl | hm
      · intro hc
        cases hc
      · obtain ⟨x, hx, rfl⟩ := List.mem_map.mp hm
        intro hc
        cases hc
    · have := renderFile_length
        (headerFields :: (list_contacts st 10000).map contactFields)
      omega

/-- Witness for C8 at a concrete input: exporting the one-row state
returns the destination path, and parsing the written text yields the
header and the stored row. -/
theorem export_csv_roundtrip_witness :
    (export_to_csv fsEmpty exState "contacts_export.csv").2 =
      "contacts_export.csv" ∧
    parseCsv (exportContent exState) =
      headerFields :: (list_contacts exState 10000).map contactFields := by
  have h := export_csv_roundtrip fsEmpty exState "contacts_export.csv"
  exact ⟨h.1, h.2.2.2⟩

/-- Witness for C4 (amended) at a concrete input: on the one-row state,
the accessor's create with an empty name grows the table to two rows
while the shell's create flow with a blank answer changes nothing. -/
theorem create_empty_name_behavior_witness :
    ((create_contact exState "" none none none "t").1).rows.length =
      exState.rows.length + 1 ∧
    menu_create_step exState (some "") none none none "t" = (exState, none) ∧
    menu_create_step exState none none none none "t" = (exState, none) :=
  create_empty_name_behavior exState none none none "t"

/-- Witness for C5 at a concrete input: deleting id 1 from the one-row
state reports `True`, and the row is no longer found. -/
theorem delete_then_get_witness :
    ((delete_contact exState 1).2 = true ↔ ∃ r ∈ exState.rows, r.id = 1) ∧
    get_contact (delete_contact exState 1).1 1 = none :=
  delete_then_get exState 1
